import Mathlib

/-!
# AKI-TOKEI-ESP32: display multiplexer, colon blink and time resync

A shallow embedding of `src/firmwware/src/app_main.cpp`.

* GPIO lines are a map from pin number to level together with the ordered
  record of every `digitalWrite` performed.
* C `for` loops with a constant bound are `forUpTo` (body may fail) and
  `forTimes` (body cannot fail).
* `uint8_t` / `int8_t` / `char` values are naturals or integers with the
  conversions written out (`toInt8`, `toChar`, `% 256`).
* Array reads are `List` lookups returning `Option`, so an index outside the
  table is visible as `none`.
-/

namespace AkiTokei

/-! ## Pin tables -/

/-- Anode pin of each digit position (`pins_led_anode`). -/
def pins_led_anode : List Nat := [12, 13, 14, 15]

/-- Cathode pin of each segment bar (`pins_led_cathode`). -/
def pins_led_cathode : List Nat := [2, 4, 5, 16, 17, 18, 19]

/-- Pin of the colon LED. -/
def pin_led_colon : Nat := 25

/-- Pin of the push button. -/
def pin_button : Nat := 0

/-! ## Hardware state -/

/-- Output lines: the current level of every pin, the ordered record of all
`digitalWrite` calls, and the ordered record of `print_7seg` invocations
as `(col, c)` pairs. -/
structure Hw where
  level : Nat → Bool
  writes : List (Nat × Bool)
  glyphs : List (Nat × Nat)

/-- Platform primitive `digitalWrite(pin, val)`. -/
def digitalWrite (pin : Nat) (val : Bool) (g : Hw) : Hw :=
  { g with
    level := fun p => if p = pin then val else g.level p
    writes := g.writes ++ [(pin, val)] }

/-- The loop `for (int i = 0; i < n; i++) body(i)`. -/
def forUpTo {σ : Type} (body : Nat → σ → Option σ) : Nat → σ → Option σ
  | 0, s => some s
  | n + 1, s => (forUpTo body n s).bind (body n)

/-- Conversion of a byte value to `int8_t`. -/
def toInt8 (n : Nat) : Int :=
  if n % 256 < 128 then ((n % 256 : Nat) : Int) else ((n % 256 : Nat) : Int) - 256

/-- Conversion of an `int` to the byte held by a `char`. -/
def toChar (x : Int) : Nat := (x % 256).toNat

/-! ## Pin drive functions -/

/-- Source `print_column(int8_t col)`: drive each anode with `col == i`. -/
def print_column (col : Int) (g : Hw) : Option Hw :=
  forUpTo (fun i g => do
    let pin ← pins_led_anode[i]?
    pure (digitalWrite pin (decide (col = (i : Int))) g)) 4 g

/-- Source `print_pattern(uint8_t pat)`: drive each cathode with
`(pat >> i) & 1`. -/
def print_pattern (pat : Nat) (g : Hw) : Option Hw :=
  forUpTo (fun i g => do
    let pin ← pins_led_cathode[i]?
    pure (digitalWrite pin (decide ((pat >>> i) &&& 1 ≠ 0)) g)) 7 g

/-- The static table `pattern[10]` of `print_7seg`. -/
def pattern : List Nat :=
  [ 0b00111111, -- 0
    0b00000110, -- 1
    0b01011011, -- 2
    0b01001111, -- 3
    0b01100110, -- 4
    0b01101101, -- 5
    0b01111101, -- 6
    0b00100111, -- 7
    0b01111111, -- 8
    0b01101111 ] -- 9

/-- The `switch (c)` of `print_7seg` computing `pat`; `none` would be a read
outside `pattern`. -/
def segPattern (c : Nat) : Option Nat :=
  match c with
  | 32 => some 0b00000000
  | 58 => some 0b10100000
  | 45 => some 0b01000000
  | 48 | 49 | 50 | 51 | 52 | 53 | 54 | 55 | 56 | 57 => pattern[c - 48]?
  | _ => some 0b00000010

/-- Source `print_7seg(uint8_t col, char c)`. -/
def print_7seg (col : Nat) (c : Nat) (g : Hw) : Option Hw := do
  let pat ← segPattern c
  let g1 ← print_column (-1) { g with glyphs := g.glyphs ++ [(col, c)] }
  let g2 ← print_pattern pat g1
  print_column (toInt8 col) g2

/-! ## Multiplexer -/

/-- The fields of `struct tm` read by `dynamic`. -/
structure Tm where
  tm_hour : Int
  tm_min : Int
  deriving DecidableEq

/-- Multiplexer state: the static `dynamic_counter` and the output lines. -/
structure Display where
  dynamic_counter : Nat
  hw : Hw

/-- Source `dynamic()`, with the result of `localtime(time(NULL))` passed in
as `t_st`. -/
def dynamic (t_st : Tm) (d : Display) : Option Display := do
  let d1 ← (match d.dynamic_counter with
    | 1 => do
      let g ← print_7seg 0
        (if t_st.tm_hour.tdiv 10 ≠ 0 then toChar (48 + t_st.tm_hour.tdiv 10) else 32) d.hw
      pure { d with hw := g }
    | 2 => do
      let g ← print_7seg 1 (toChar (48 + t_st.tm_hour.tmod 10)) d.hw
      pure { d with hw := g }
    | 3 => do
      let g ← print_7seg 2 (toChar (48 + t_st.tm_min.tdiv 10)) d.hw
      pure { d with hw := g }
    | 4 => do
      let g ← print_7seg 3 (toChar (48 + t_st.tm_min.tmod 10)) d.hw
      pure { dynamic_counter := 0, hw := g }
    | _ => pure { d with dynamic_counter := 0 })
  pure { d1 with dynamic_counter := (d1.dynamic_counter + 1) % 256 }

/-- Lines at power-up before any write. -/
def Hw.boot : Hw := { level := fun _ => false, writes := [], glyphs := [] }

/-- The initial multiplexer state: `dynamic_counter = 1`. -/
def Display.init (g : Hw) : Display := { dynamic_counter := 1, hw := g }

/-- Run `n` consecutive calls of `dynamic`, call number `k` (from 0) seeing the
time `clock k`. -/
def dynamicRun (clock : Nat → Tm) : Nat → Display → Option Display
  | 0, d => some d
  | n + 1, d => (dynamicRun clock n d).bind (dynamic (clock n))

/-! ## Colon blink -/

/-- State of the colon task: its local `xLastWakeTime` (a 32-bit tick count),
the output lines, and the record of every completed delay as
`(level of the colon line during the delay, length in ticks)`. -/
structure ColonTask where
  xLastWakeTime : Nat
  hw : Hw
  held : List (Bool × Nat)

/-- Platform primitive `vTaskDelayUntil(&xLastWakeTime, inc)` as seen by the
colon task: the wake time advances by `inc` ticks and the colon line keeps
its level for that long. -/
def vTaskDelayUntil (inc : Nat) (s : ColonTask) : ColonTask :=
  { s with
    xLastWakeTime := (s.xLastWakeTime + inc) % 2 ^ 32
    held := s.held ++ [(s.hw.level pin_led_colon, inc)] }

/-- The loop `for (int i = 0; i < n; i++) body(i)` for a body that cannot
fail. -/
def forTimes {σ : Type} (body : Nat → σ → σ) : Nat → σ → σ
  | 0, s => s
  | n + 1, s => body n (forTimes body n s)

/-- One pass of the inner loop body of `colon_task`. -/
def colon_pulse (portTICK_RATE_MS : Nat) (s : ColonTask) : ColonTask :=
  let s1 := { s with hw := digitalWrite pin_led_colon true s.hw }
  let s2 := vTaskDelayUntil (1 / portTICK_RATE_MS) s1
  let s3 := { s2 with hw := digitalWrite pin_led_colon false s2.hw }
  vTaskDelayUntil (9 / portTICK_RATE_MS) s3

/-- One pass of the outer `while (1)` body of `colon_task`. -/
def colon_cycle (portTICK_RATE_MS : Nat) (s : ColonTask) : ColonTask :=
  let s1 := forTimes (fun _ s => colon_pulse portTICK_RATE_MS s) 50 s
  let s2 := { s1 with hw := digitalWrite pin_led_colon false s1.hw }
  vTaskDelayUntil (500 / portTICK_RATE_MS) s2

/-- The segments of one colon cycle as the specification lists them: 50 times
(high for `x`, low for `y`), then low for `z`. -/
def colonCycleSpec (x y z : Nat) : List (Bool × Nat) :=
  (List.replicate 50 [(true, x), (false, y)]).flatten ++ [(false, z)]

/-- The colon level at each tick of a list of held segments. -/
def timeline (segs : List (Bool × Nat)) : List Bool :=
  (segs.map (fun sg => List.replicate sg.2 sg.1)).flatten

/-- Number of rising edges in a sampled line that was low just before. -/
def risingEdges : Bool → List Bool → Nat
  | _, [] => 0
  | prev, b :: bs => (if !prev && b then 1 else 0) + risingEdges b bs

/-! ## Time synchronisation -/

/-- Lines written to the serial log by `setTime`. -/
inductive LogMsg where
  | failedToObtainTime
  | time (t : Tm)
  deriving DecidableEq

/-- Calls made by the resync task, in the order made. -/
inductive NetCall where
  | delayUntil (ticks : Nat)
  | wifiBegin
  | waitForConnectResult
  | setTime
  deriving DecidableEq

/-- Whole-device state: the platform clock as read through
`localtime(time(NULL))`, the multiplexer, the serial log, and the record of
calls made by the resync task. -/
structure Sys where
  clock : Tm
  display : Display
  serial : List LogMsg
  calls : List NetCall

/-- Value of `WL_CONNECTED` in the platform's `wl_status_t`. -/
def WL_CONNECTED : Nat := 3

/-- Source `setTime()`, with the result of the platform query
`getLocalTime(&timeinfo)` passed in as `getLocalTime`. -/
def setTime (getLocalTime : Bool) (s : Sys) : Sys :=
  let s1 := { s with calls := s.calls ++ [NetCall.setTime] }
  if !getLocalTime then
    { s1 with serial := s1.serial ++ [LogMsg.failedToObtainTime] }
  else
    { s1 with serial := s1.serial ++ [LogMsg.time s1.clock] }

/-- One pass of the `while (1)` body of `time_task`, with the value of
`WiFi.status()` and the result of `getLocalTime` passed in. -/
def time_task_iter (portTICK_RATE_MS : Nat) (status : Nat) (getLocalTime : Bool)
    (s : Sys) : Sys :=
  let s1 := { s with calls := s.calls ++ [NetCall.delayUntil (1000 * 60 * 60 / portTICK_RATE_MS)] }
  let s2 :=
    if status ≠ WL_CONNECTED then
      let a := { s1 with calls := s1.calls ++ [NetCall.wifiBegin] }
      { a with calls := a.calls ++ [NetCall.waitForConnectResult] }
    else s1
  setTime getLocalTime s2

/-- One call of `dynamic()` on the whole device: the time is read from the
platform clock. -/
def sysDynamic (s : Sys) : Option Sys :=
  (dynamic s.clock s.display).map (fun d => { s with display := d })

/-! ## Specification-side definitions -/

/-- The segment mask the specification assigns to each character: the ten
digit masks, blank for space, the colon and dash masks, and the error mask
for everything else. -/
def maskSpec (c : Nat) : Nat :=
  if c = 48 then 0x3F else if c = 49 then 0x06 else if c = 50 then 0x5B
  else if c = 51 then 0x4F else if c = 52 then 0x66 else if c = 53 then 0x6D
  else if c = 54 then 0x7D else if c = 55 then 0x27 else if c = 56 then 0x7F
  else if c = 57 then 0x6F else if c = 32 then 0b00000000
  else if c = 58 then 0b10100000 else if c = 45 then 0b01000000
  else 0b00000010

/-- The writes of one anode sweep selecting `col`. -/
def anodeWrites (col : Int) : List (Nat × Bool) :=
  [(12, decide (col = 0)), (13, decide (col = 1)), (14, decide (col = 2)),
   (15, decide (col = 3))]

/-- The writes of one cathode sweep showing `pat`. -/
def cathodeWrites (pat : Nat) : List (Nat × Bool) :=
  [(2, pat.testBit 0), (4, pat.testBit 1), (5, pat.testBit 2), (16, pat.testBit 3),
   (17, pat.testBit 4), (18, pat.testBit 5), (19, pat.testBit 6)]

/-- Pin levels after performing a list of writes in order. -/
def replay (ws : List (Nat × Bool)) (lv : Nat → Bool) : Nat → Bool :=
  ws.foldl (fun lv w p => if p = w.1 then w.2 else lv p) lv

/-- Perform a list of writes in order. -/
def applyWrites (ws : List (Nat × Bool)) (g : Hw) : Hw :=
  ws.foldl (fun g w => digitalWrite w.1 w.2 g) g

/-- The result of `print_7seg col c` on the lines `g`, written out. -/
def shown (col c : Nat) (g : Hw) : Hw :=
  applyWrites
    (anodeWrites (-1) ++ cathodeWrites (maskSpec c) ++ anodeWrites (toInt8 col))
    { g with glyphs := g.glyphs ++ [(col, c)] }

/-- The character `dynamic` passes for position `k` at time `t`. -/
def dynamicChar (t : Tm) (k : Nat) : Nat :=
  match k with
  | 0 => if t.tm_hour.tdiv 10 ≠ 0 then toChar (48 + t.tm_hour.tdiv 10) else 32
  | 1 => toChar (48 + t.tm_hour.tmod 10)
  | 2 => toChar (48 + t.tm_min.tdiv 10)
  | _ => toChar (48 + t.tm_min.tmod 10)

/-- The lines after `n` calls of `dynamic` from the initial counter. -/
def runHw (clock : Nat → Tm) : Nat → Hw → Hw
  | 0, g => g
  | n + 1, g => shown (n % 4) (dynamicChar (clock n) (n % 4)) (runHw clock n g)

/-- Levels of the four anode lines, in position order. -/
def anodeLevels (g : Hw) : List Bool := pins_led_anode.map g.level

/-- Levels of the seven cathode lines, in segment order. -/
def cathodeLevels (g : Hw) : List Bool := pins_led_cathode.map g.level

/-- The characters with an entry of their own in `print_7seg`: the ten
digits, space, colon and dash. -/
def definedChars : List Nat := [48, 49, 50, 51, 52, 53, 54, 55, 56, 57, 32, 58, 45]

/-- Bits 0..6 of a mask, in segment order. -/
def lowSeven (pat : Nat) : List Bool :=
  [pat.testBit 0, pat.testBit 1, pat.testBit 2, pat.testBit 3, pat.testBit 4,
   pat.testBit 5, pat.testBit 6]

/-! ## Basic facts -/

theorem segPattern_eq_maskSpec (c : Nat) : segPattern c = some (maskSpec c) := by
  unfold segPattern
  split <;> first | rfl | skip
  rename_i h1 h2 h3 h4 h5 h6 h7 h8 h9 h10 h11 h12 h13
  unfold maskSpec
  rw [if_neg h4, if_neg h5, if_neg h6, if_neg h7, if_neg h8, if_neg h9, if_neg h10,
    if_neg h11, if_neg h12, if_neg h13, if_neg h1, if_neg h2, if_neg h3]

theorem shift_and_one (pat i : Nat) :
    decide ((pat >>> i) &&& 1 ≠ 0) = pat.testBit i := by
  simp [Nat.testBit, Nat.and_comm]

theorem applyWrites_level (ws : List (Nat × Bool)) (g : Hw) :
    (applyWrites ws g).level = replay ws g.level := by
  induction ws generalizing g with
  | nil => rfl
  | cons w ws ih => simp [applyWrites, replay, List.foldl] at ih ⊢; rw [ih]; rfl

theorem applyWrites_writes (ws : List (Nat × Bool)) (g : Hw) :
    (applyWrites ws g).writes = g.writes ++ ws := by
  induction ws generalizing g with
  | nil => simp [applyWrites]
  | cons w ws ih => simp [applyWrites, List.foldl] at ih ⊢; rw [ih]; simp [digitalWrite]

theorem applyWrites_glyphs (ws : List (Nat × Bool)) (g : Hw) :
    (applyWrites ws g).glyphs = g.glyphs := by
  induction ws generalizing g with
  | nil => simp [applyWrites]
  | cons w ws ih => simp [applyWrites, List.foldl] at ih ⊢; rw [ih]; simp [digitalWrite]

theorem applyWrites_append (ws vs : List (Nat × Bool)) (g : Hw) :
    applyWrites (ws ++ vs) g = applyWrites vs (applyWrites ws g) := by
  simp [applyWrites, List.foldl_append]

theorem print_column_eq (col : Int) (g : Hw) :
    print_column col g = some (applyWrites (anodeWrites col) g) := by
  simp [print_column, forUpTo, pins_led_anode, applyWrites, anodeWrites]

theorem print_pattern_eq (pat : Nat) (g : Hw) :
    print_pattern pat g = some (applyWrites (cathodeWrites pat) g) := by
  simp only [print_pattern, shift_and_one]
  simp [forUpTo, pins_led_cathode, applyWrites, cathodeWrites]

/-- The complete effect of one `print_7seg` call. -/
theorem print_7seg_eq (col c : Nat) (g : Hw) :
    print_7seg col c g = some (applyWrites
      (anodeWrites (-1) ++ cathodeWrites (maskSpec c) ++ anodeWrites (toInt8 col))
      { g with glyphs := g.glyphs ++ [(col, c)] }) := by
  simp [print_7seg, segPattern_eq_maskSpec, print_column_eq, print_pattern_eq,
    applyWrites_append]

theorem print_7seg_shown (col c : Nat) (g : Hw) :
    print_7seg col c g = some (shown col c g) := by
  rw [print_7seg_eq]; rfl

theorem shown_glyphs (col c : Nat) (g : Hw) :
    (shown col c g).glyphs = g.glyphs ++ [(col, c)] := by
  simp [shown, applyWrites_glyphs]

theorem shown_writes (col c : Nat) (g : Hw) :
    (shown col c g).writes = g.writes ++
      (anodeWrites (-1) ++ cathodeWrites (maskSpec c) ++ anodeWrites (toInt8 col)) := by
  simp [shown, applyWrites_writes]

theorem shown_level (col c : Nat) (g : Hw) :
    (shown col c g).level = replay
      (anodeWrites (-1) ++ cathodeWrites (maskSpec c) ++ anodeWrites (toInt8 col))
      g.level := by
  simp [shown, applyWrites_level]

/-- One call of `dynamic` with the counter at `k + 1`, `k < 4`. -/
theorem dynamic_step (t : Tm) (d : Display) (k : Nat) (hk : k < 4)
    (hc : d.dynamic_counter = k + 1) :
    dynamic t d = some
      { dynamic_counter := (k + 1) % 4 + 1, hw := shown k (dynamicChar t k) d.hw } := by
  obtain ⟨cnt, hw⟩ := d
  simp only at hc
  subst hc
  interval_cases k <;> simp [dynamic, print_7seg_shown, dynamicChar]

theorem dynamicRun_eq (clock : Nat → Tm) (n : Nat) (g : Hw) :
    dynamicRun clock n (Display.init g) =
      some { dynamic_counter := n % 4 + 1, hw := runHw clock n g } := by
  induction n with
  | zero => rfl
  | succ n ih =>
    simp only [dynamicRun, ih, Option.some_bind]
    rw [dynamic_step (clock n) _ (n % 4) (Nat.mod_lt _ (by norm_num)) rfl]
    simp [runHw]

theorem runHw_glyphs (clock : Nat → Tm) (n : Nat) (g : Hw) :
    (runHw clock n g).glyphs =
      g.glyphs ++ (List.range n).map (fun k => (k % 4, dynamicChar (clock k) (k % 4))) := by
  induction n with
  | zero => simp [runHw]
  | succ n ih => simp [runHw, shown_glyphs, ih, List.range_succ]

theorem hourTens_char (h : Nat) (hh : h < 24) :
    (if (h : Int).tdiv 10 ≠ 0 then toChar (48 + (h : Int).tdiv 10) else 32) =
      if h < 10 then 32 else 48 + h / 10 := by
  interval_cases h <;> rfl

theorem hourUnits_char (h : Nat) (hh : h < 24) :
    toChar (48 + (h : Int).tmod 10) = 48 + h % 10 := by
  interval_cases h <;> rfl

theorem minTens_char (m : Nat) (hm : m < 60) :
    toChar (48 + (m : Int).tdiv 10) = 48 + m / 10 := by
  interval_cases m <;> rfl

theorem minUnits_char (m : Nat) (hm : m < 60) :
    toChar (48 + (m : Int).tmod 10) = 48 + m % 10 := by
  interval_cases m <;> rfl

theorem toInt8_small (col : Nat) (hcol : col < 4) : toInt8 col = (col : Int) := by
  interval_cases col <;> rfl

/-- Anode levels after one `print_7seg` call. -/
theorem shown_anodeLevels (col c : Nat) (g : Hw) :
    anodeLevels (shown col c g) =
      [decide (toInt8 col = 0), decide (toInt8 col = 1), decide (toInt8 col = 2),
       decide (toInt8 col = 3)] := by
  simp [anodeLevels, pins_led_anode, shown_level, replay, anodeWrites, cathodeWrites]

/-- Cathode levels after one `print_7seg` call. -/
theorem shown_cathodeLevels (col c : Nat) (g : Hw) :
    cathodeLevels (shown col c g) = lowSeven (maskSpec c) := by
  simp [cathodeLevels, pins_led_cathode, shown_level, replay, anodeWrites, cathodeWrites,
    lowSeven]

theorem maskSpec_big (c : Nat) (hc : 59 ≤ c) : maskSpec c = 2 := by
  have d0 : c ≠ 48 := by omega
  have d1 : c ≠ 49 := by omega
  have d2 : c ≠ 50 := by omega
  have d3 : c ≠ 51 := by omega
  have d4 : c ≠ 52 := by omega
  have d5 : c ≠ 53 := by omega
  have d6 : c ≠ 54 := by omega
  have d7 : c ≠ 55 := by omega
  have d8 : c ≠ 56 := by omega
  have d9 : c ≠ 57 := by omega
  have sp : c ≠ 32 := by omega
  have co : c ≠ 58 := by omega
  have da : c ≠ 45 := by omega
  simp only [maskSpec, d0, d1, d2, d3, d4, d5, d6, d7, d8, d9, sp, co, da, if_false]

theorem maskSpec_other (c : Nat) (hc : c ∉ definedChars) : maskSpec c = 2 := by
  by_cases hlt : c < 59
  · interval_cases c <;> first | rfl | exact absurd (by decide) hc
  · exact maskSpec_big c (by omega)

theorem maskSpec_lt_of_ne_colon (c : Nat) (hc : c ≠ 58) : maskSpec c < 128 := by
  by_cases hlt : c < 59
  · interval_cases c <;> first | decide | exact absurd rfl hc
  · rw [maskSpec_big c (by omega)]; decide

theorem lowSeven_small :
    ∀ a ∈ definedChars, ∀ b < 59, a ≠ b → lowSeven (maskSpec a) ≠ lowSeven (maskSpec b) := by
  decide

theorem lowSeven_error : ∀ a ∈ definedChars, lowSeven (maskSpec a) ≠ lowSeven 2 := by
  decide

theorem lowSeven_maskSpec_ne (a b : Nat) (ha : a ∈ definedChars) (hab : a ≠ b) :
    lowSeven (maskSpec a) ≠ lowSeven (maskSpec b) := by
  by_cases hlt : b < 59
  · exact lowSeven_small a ha b hlt hab
  · rw [maskSpec_big b (by omega)]
    exact lowSeven_error a ha

/-! ## The claims -/

/-- C1: with hour `h < 24` and minute `m < 60` held fixed, the first `n ≤ 4`
calls of `dynamic` from the initial counter pass to `print_7seg` exactly the
first `n` of the four pairs (0, blank or hour tens), (1, hour units),
(2, minute tens), (3, minute units); the hour-tens character is the blank
exactly when `h < 10`. -/
theorem dynamic_four_slots (h m : Nat) (hh : h < 24) (hm : m < 60) (g : Hw)
    (n : Nat) (hn : n ≤ 4) :
    ∃ d, dynamicRun (fun _ => ⟨h, m⟩) n (Display.init g) = some d ∧
      d.hw.glyphs = g.glyphs ++ List.take n
        [(0, if h < 10 then 32 else 48 + h / 10), (1, 48 + h % 10),
         (2, 48 + m / 10), (3, 48 + m % 10)] ∧
      ((if h < 10 then 32 else 48 + h / 10) = 32 ↔ h < 10) := by
  refine ⟨_, dynamicRun_eq _ n g, ?_, ?_⟩
  · rw [runHw_glyphs]
    congr 1
    have e0 := hourTens_char h hh
    have e1 := hourUnits_char h hh
    have e2 := minTens_char m hm
    have e3 := minUnits_char m hm
    interval_cases n <;> simp [List.range_succ, dynamicChar, e0, e1, e2, e3]
  · split_ifs with h10
    · simp [h10]
    · constructor
      · intro e; omega
      · intro e; omega

/-- Instance of C1 at 23:05 from the power-up lines, all four calls. -/
theorem dynamic_four_slots_witness :
    ∃ d, dynamicRun (fun _ => ⟨((23 : Nat) : Int), ((5 : Nat) : Int)⟩) 4
        (Display.init Hw.boot) = some d ∧
      d.hw.glyphs = Hw.boot.glyphs ++ List.take 4
        [(0, if 23 < 10 then 32 else 48 + 23 / 10), (1, 48 + 23 % 10),
         (2, 48 + 5 / 10), (3, 48 + 5 % 10)] ∧
      ((if 23 < 10 then 32 else 48 + 23 / 10) = 32 ↔ 23 < 10) :=
  dynamic_four_slots 23 5 (by decide) (by decide) Hw.boot 4 (by decide)

/-- C2: the mask chosen by `print_7seg` is the specification's table applied
to `c` alone: every digit reads inside `pattern`, every character outside the
thirteen listed gets the error mask 2, the lookup never fails, and the
cathode writes of a call are those of that mask whatever `col` and the lines
were. -/
theorem segment_lookup_table (col c : Nat) (g : Hw) :
    segPattern c = some (maskSpec c) ∧
    (∀ d : Fin 10, (d : Nat) < pattern.length ∧
      segPattern (48 + d) = pattern[(d : Nat)]?) ∧
    (c ∉ definedChars → segPattern c = some 0b00000010) ∧
    ∃ g1, print_7seg col c g = some g1 ∧
      g1.writes = g.writes ++
        (anodeWrites (-1) ++ cathodeWrites (maskSpec c) ++ anodeWrites (toInt8 col)) := by
  refine ⟨segPattern_eq_maskSpec c, by decide, ?_, _, print_7seg_shown col c g,
    shown_writes col c g⟩
  intro hc
  rw [segPattern_eq_maskSpec, maskSpec_other c hc]

/-- C3 fails at the colon: its mask is 160, which has bit 7 set. -/
theorem colon_mask_not_seven_bit :
    ∃ pat, segPattern 58 = some pat ∧ ¬ pat < 128 :=
  ⟨160, rfl, by decide⟩

/-- C3 as amended: for every character other than the colon the mask chosen
by `print_7seg` is below 128, and the colon's mask is 160. -/
theorem mask_seven_bit_except_colon (c : Nat) (hc : c ≠ 58) :
    (∃ pat, segPattern c = some pat ∧ pat < 128) ∧ segPattern 58 = some 160 :=
  ⟨⟨_, segPattern_eq_maskSpec c, maskSpec_lt_of_ne_colon c hc⟩, rfl⟩

/-- Instance of the amended C3 at the character 0. -/
theorem mask_seven_bit_except_colon_witness :
    (48 : Nat) ≠ 58 ∧
      ((∃ pat, segPattern 48 = some pat ∧ pat < 128) ∧ segPattern 58 = some 160) :=
  ⟨by decide, mask_seven_bit_except_colon 48 (by decide)⟩

/-- C4: after `n` calls from the initial counter the counter is `n % 4 + 1`,
one of 1, 2, 3, 4; call number `n + 1` invokes `print_7seg` exactly once, for
position `n % 4`, and leaves that anode selected; the positions served by the
first `n + 1` calls are `0, 1, 2, 3, 0, ...` in order, whatever the clock
reads at each call. -/
theorem dynamic_rotation (clock : Nat → Tm) (g : Hw) (n : Nat) :
    ∃ d d1, dynamicRun clock n (Display.init g) = some d ∧
      d.dynamic_counter = n % 4 + 1 ∧
      d.dynamic_counter ∈ [1, 2, 3, 4] ∧
      dynamic (clock n) d = some d1 ∧
      dynamicRun clock (n + 1) (Display.init g) = some d1 ∧
      (∃ c, d1.hw.glyphs = d.hw.glyphs ++ [(n % 4, c)]) ∧
      anodeLevels d1.hw =
        [decide (n % 4 = 0), decide (n % 4 = 1), decide (n % 4 = 2), decide (n % 4 = 3)] ∧
      d1.hw.glyphs.map Prod.fst =
        g.glyphs.map Prod.fst ++ (List.range (n + 1)).map (fun k => k % 4) := by
  have hlt : n % 4 < 4 := Nat.mod_lt _ (by norm_num)
  refine ⟨_, _, dynamicRun_eq clock n g, rfl, ?_, ?_, dynamicRun_eq clock (n + 1) g,
    ⟨_, shown_glyphs _ _ _⟩, ?_, ?_⟩
  · simp only [List.mem_cons, List.mem_singleton, List.not_mem_nil, or_false]
    omega
  · rw [dynamic_step (clock n) _ (n % 4) hlt rfl]
    have e : (n % 4 + 1) % 4 + 1 = (n + 1) % 4 + 1 := by omega
    simp only [e, runHw]
  · simp only [runHw, shown_anodeLevels, toInt8_small _ hlt]
    have h4 := hlt
    interval_cases (n % 4) <;> rfl
  · rw [runHw_glyphs]
    simp [List.map_append, List.map_map, Function.comp_def]

/-- C5: for `col < 4`, after `print_7seg col c` anode `i` is high exactly when
`i = col` and cathode `i` is high exactly when bit `i` of the looked-up mask
is set; and every call of `dynamic` in a run from the initial counter leaves
exactly one anode high. -/
theorem print_7seg_levels (col c : Nat) (hcol : col < 4) (g : Hw)
    (clock : Nat → Tm) (n : Nat) :
    (∃ g1 pat, print_7seg col c g = some g1 ∧ segPattern c = some pat ∧
      (∀ i p, pins_led_anode[i]? = some p → (g1.level p = true ↔ i = col)) ∧
      (∀ i p, pins_led_cathode[i]? = some p →
        (g1.level p = true ↔ pat.testBit i = true))) ∧
    (∃ d, dynamicRun clock (n + 1) (Display.init g) = some d ∧
      (anodeLevels d.hw).count true = 1) := by
  refine ⟨⟨_, _, print_7seg_shown col c g, segPattern_eq_maskSpec c, ?_, ?_⟩,
    _, dynamicRun_eq clock (n + 1) g, ?_⟩
  · intro i p hp
    have hA := shown_anodeLevels col c g
    rw [toInt8_small col hcol] at hA
    simp only [anodeLevels, pins_led_anode, List.map_cons, List.map_nil, List.cons.injEq,
      and_true] at hA
    obtain ⟨a0, a1, a2, a3⟩ := hA
    match i, hp with
    | 0, hp => simp [pins_led_anode] at hp; subst hp; rw [a0]; simp; omega
    | 1, hp => simp [pins_led_anode] at hp; subst hp; rw [a1]; simp; omega
    | 2, hp => simp [pins_led_anode] at hp; subst hp; rw [a2]; simp; omega
    | 3, hp => simp [pins_led_anode] at hp; subst hp; rw [a3]; simp; omega
    | i + 4, hp => simp [pins_led_anode] at hp
  · intro i p hp
    have hC := shown_cathodeLevels col c g
    simp only [cathodeLevels, pins_led_cathode, lowSeven, List.map_cons, List.map_nil,
      List.cons.injEq, and_true] at hC
    obtain ⟨c0, c1, c2, c3, c4, c5, c6⟩ := hC
    match i, hp with
    | 0, hp => simp [pins_led_cathode] at hp; subst hp; rw [c0]
    | 1, hp => simp [pins_led_cathode] at hp; subst hp; rw [c1]
    | 2, hp => simp [pins_led_cathode] at hp; subst hp; rw [c2]
    | 3, hp => simp [pins_led_cathode] at hp; subst hp; rw [c3]
    | 4, hp => simp [pins_led_cathode] at hp; subst hp; rw [c4]
    | 5, hp => simp [pins_led_cathode] at hp; subst hp; rw [c5]
    | 6, hp => simp [pins_led_cathode] at hp; subst hp; rw [c6]
    | i + 7, hp => simp [pins_led_cathode] at hp
  · have hlt : n % 4 < 4 := Nat.mod_lt _ (by norm_num)
    simp only [runHw, shown_anodeLevels, toInt8_small _ hlt]
    interval_cases (n % 4) <;> rfl

/-- Instance of C5 at position 2, character 7, and the sixth call of a run. -/
theorem print_7seg_levels_witness :
    (2 : Nat) < 4 ∧
    ((∃ g1 pat, print_7seg 2 55 Hw.boot = some g1 ∧ segPattern 55 = some pat ∧
      (∀ i p, pins_led_anode[i]? = some p → (g1.level p = true ↔ i = 2)) ∧
      (∀ i p, pins_led_cathode[i]? = some p →
        (g1.level p = true ↔ pat.testBit i = true))) ∧
    (∃ d, dynamicRun (fun _ => ⟨12, 34⟩) (5 + 1) (Display.init Hw.boot) = some d ∧
      (anodeLevels d.hw).count true = 1)) :=
  ⟨by decide, print_7seg_levels 2 55 (by decide) Hw.boot (fun _ => ⟨12, 34⟩) 5⟩

/-- C9: the writes of `print_7seg col c` are, in order, the four anodes
LOW, the seven cathodes with bits 0..6 of the mask, then the four anodes with
`col == i`. After any first `k` of these writes: up to `k = 4` the cathodes
still hold what they held before the call, from `k = 4` to `k = 11` every
anode is low, and from `k = 11` on the cathodes hold the new pattern. -/
theorem print_7seg_write_order (col c : Nat) (g : Hw) :
    ∃ g1 pat ws, print_7seg col c g = some g1 ∧ segPattern c = some pat ∧
      ws = [(12, false), (13, false), (14, false), (15, false)] ++ cathodeWrites pat ++
        anodeWrites (toInt8 col) ∧
      g1.writes = g.writes ++ ws ∧
      g1 = applyWrites ws { g with glyphs := g.glyphs ++ [(col, c)] } ∧
      ∀ k,
        (k ≤ 4 → cathodeLevels (applyWrites (ws.take k) g) = cathodeLevels g) ∧
        (4 ≤ k → k ≤ 11 →
          anodeLevels (applyWrites (ws.take k) g) = [false, false, false, false]) ∧
        (11 ≤ k → cathodeLevels (applyWrites (ws.take k) g) = lowSeven pat) := by
  refine ⟨_, maskSpec c, _, print_7seg_shown col c g, segPattern_eq_maskSpec c, rfl,
    ?_, ?_, ?_⟩
  · rw [shown_writes]; rfl
  · rfl
  · intro k
    rcases Nat.lt_or_ge k 16 with hk | hk
    · interval_cases k <;>
        simp [cathodeLevels, anodeLevels, pins_led_cathode, pins_led_anode,
          applyWrites_level, replay, cathodeWrites, anodeWrites, lowSeven]
    · rw [List.take_of_length_le (by simp [cathodeWrites, anodeWrites]; omega)]
      simp [cathodeLevels, pins_led_cathode, applyWrites_level, replay, cathodeWrites,
        anodeWrites, lowSeven]
      omega

/-- C10: a defined character `a` (digit, space, colon, dash) and any other
character `b`, defined or not, never leave the same levels on the seven
cathode lines; those levels are bits 0..6 of the looked-up mask. -/
theorem driven_pattern_injective (a b col1 col2 : Nat) (g1 g2 : Hw)
    (ha : a ∈ definedChars) (hab : a ≠ b) :
    ∃ ra rb pa pb, print_7seg col1 a g1 = some ra ∧ print_7seg col2 b g2 = some rb ∧
      segPattern a = some pa ∧ segPattern b = some pb ∧
      cathodeLevels ra = lowSeven pa ∧ cathodeLevels rb = lowSeven pb ∧
      cathodeLevels ra ≠ cathodeLevels rb := by
  refine ⟨_, _, _, _, print_7seg_shown col1 a g1, print_7seg_shown col2 b g2,
    segPattern_eq_maskSpec a, segPattern_eq_maskSpec b, shown_cathodeLevels _ _ _,
    shown_cathodeLevels _ _ _, ?_⟩
  rw [shown_cathodeLevels, shown_cathodeLevels]
  exact lowSeven_maskSpec_ne a b ha hab

/-- Instance of C10 at the colon against the undefined character A. -/
theorem driven_pattern_injective_witness :
    (58 : Nat) ∈ definedChars ∧ (58 : Nat) ≠ 65 ∧
    ∃ ra rb pa pb, print_7seg 0 58 Hw.boot = some ra ∧ print_7seg 3 65 Hw.boot = some rb ∧
      segPattern 58 = some pa ∧ segPattern 65 = some pb ∧
      cathodeLevels ra = lowSeven pa ∧ cathodeLevels rb = lowSeven pb ∧
      cathodeLevels ra ≠ cathodeLevels rb :=
  ⟨by decide, by decide,
    driven_pattern_injective 58 65 0 3 Hw.boot Hw.boot (by decide) (by decide)⟩

theorem colon_pulse_held (r : Nat) (s : ColonTask) :
    (colon_pulse r s).held = s.held ++ [(true, 1 / r), (false, 9 / r)] := by
  simp [colon_pulse, vTaskDelayUntil, digitalWrite]

theorem colon_pulses_held (r n : Nat) (s : ColonTask) :
    (forTimes (fun _ s => colon_pulse r s) n s).held =
      s.held ++ (List.replicate n [(true, 1 / r), (false, 9 / r)]).flatten := by
  induction n with
  | zero => simp [forTimes]
  | succ n ih =>
    simp only [forTimes, colon_pulse_held, ih, List.replicate_succ']
    simp [List.flatten_append]

theorem colon_cycle_held (r : Nat) (s : ColonTask) :
    (colon_cycle r s).held = s.held ++ colonCycleSpec (1 / r) (9 / r) (500 / r) := by
  simp [colon_cycle, vTaskDelayUntil, digitalWrite, colon_pulses_held, colonCycleSpec]

theorem colon_cycles_held (r n : Nat) (s : ColonTask) :
    ((colon_cycle r)^[n] s).held =
      s.held ++ (List.replicate n (colonCycleSpec (1 / r) (9 / r) (500 / r))).flatten := by
  induction n generalizing s with
  | zero => simp
  | succ n ih =>
    rw [Function.iterate_succ_apply, ih, colon_cycle_held, List.replicate_succ]
    simp

set_option maxRecDepth 100000 in
theorem colon_timeline_length : (timeline (colonCycleSpec 1 9 500)).length = 1000 := by
  decide

set_option maxRecDepth 100000 in
theorem colon_timeline_high : (timeline (colonCycleSpec 1 9 500)).count true = 50 := by
  decide

set_option maxRecDepth 100000 in
theorem colon_timeline_edges :
    risingEdges false (timeline (colonCycleSpec 1 9 500)) = 50 := by
  decide

/-- C6: with a 1 ms tick one pass of the outer loop of `colon_task` holds the
colon line through 50 repetitions of (high 1 tick, low 9 ticks) followed by
low for 500 ticks: 1000 ticks in all, 50 high ticks, 50 rising edges; and
`n` passes hold it through `n` copies of that sequence. -/
theorem colon_cycle_shape (s : ColonTask) (n : Nat) :
    (colon_cycle 1 s).held = s.held ++ colonCycleSpec 1 9 500 ∧
    ((colonCycleSpec 1 9 500).map Prod.snd).sum = 50 * (1 + 9) + 500 ∧
    (timeline (colonCycleSpec 1 9 500)).length = 1000 ∧
    (timeline (colonCycleSpec 1 9 500)).count true = 50 ∧
    risingEdges false (timeline (colonCycleSpec 1 9 500)) = 50 ∧
    ((colon_cycle 1)^[n] s).held =
      s.held ++ (List.replicate n (colonCycleSpec 1 9 500)).flatten := by
  exact ⟨colon_cycle_held 1 s, by decide, colon_timeline_length, colon_timeline_high,
    colon_timeline_edges, colon_cycles_held 1 n s⟩

/-- C7: one pass of `time_task` makes, after its delay, the calls
`WiFi.begin`, `WiFi.waitForConnectResult`, `setTime` in that order when
`WiFi.status()` is not `WL_CONNECTED`, and the single call `setTime` when it
is; `setTime` is called exactly once either way, as the last call. -/
theorem time_task_iter_calls (r status : Nat) (ok : Bool) (s : Sys) :
    (time_task_iter r status ok s).calls =
      s.calls ++ NetCall.delayUntil (1000 * 60 * 60 / r) ::
        (if status = WL_CONNECTED then [NetCall.setTime]
         else [NetCall.wifiBegin, NetCall.waitForConnectResult, NetCall.setTime]) ∧
    ((time_task_iter r status ok s).calls.drop s.calls.length).count NetCall.setTime = 1 ∧
    (time_task_iter r status ok s).calls.getLast? = some NetCall.setTime := by
  by_cases h : status = WL_CONNECTED
  · cases ok <;> simp [time_task_iter, setTime, h]
  · cases ok <;> simp [time_task_iter, setTime, h]

/-- C8: when `getLocalTime` fails, `setTime` adds one line to the serial log
and nothing else: the clock read by the multiplexer, the rotation counter and
all output lines with their write record are as before, so the next call of
`dynamic`, and any number of further calls, do what they would have done
without the failed fetch. -/
theorem setTime_failure_frame (s : Sys) (n : Nat) :
    (setTime false s).clock = s.clock ∧
    (setTime false s).display = s.display ∧
    (setTime false s).serial = s.serial ++ [LogMsg.failedToObtainTime] ∧
    (sysDynamic (setTime false s)).map (fun x => x.display) =
      (sysDynamic s).map (fun x => x.display) ∧
    dynamicRun (fun _ => (setTime false s).clock) n (setTime false s).display =
      dynamicRun (fun _ => s.clock) n s.display := by
  refine ⟨rfl, rfl, rfl, ?_, rfl⟩
  simp [sysDynamic, setTime, Option.map_map, Function.comp_def]

end AkiTokei
